import Mathlib

/-!
Shallow embedding of the order-book indexing / risk / matching core of the
`voice_pay` Web3 service (TypeScript), together with proofs about the claims
of its specification.

Sources embedded:
* `web3_service/src/trading/pricing.ts` (decimal/unit conversion, via
  ethers v6 `parseUnits` / `formatUnits`, i.e. `FixedNumber` with
  `{ decimals, width: 512 }`);
* `web3_service/src/indexer/orderbook-indexer.ts` (scanRange event
  processing, sync chunking, getLogsSafe bisection, active-order query,
  allow-list parsing);
* `web3_service/src/risk/risk-checker.ts` (checkRisk, parseAllowlist);
* `web3_service/src/trading/match-order.ts` (ensureAllowance, matchOrder).

JavaScript strings are modelled as Lean `String` / `List Char`; JS `number`
and `bigint` are modelled as `Nat` (all values the code manipulates here are
non-negative; `Number(bigint)` conversions are modelled as exact, which is
accurate below 2^53). Network I/O is modelled by explicit oracle parameters
and by lists of emitted effects.
-/

set_option maxRecDepth 8192

deriving instance DecidableEq for Except

/-- JS digit test, `[0-9]`. -/
def isDigitChar (c : Char) : Bool := '0' ≤ c && c ≤ '9'

/-- Hex digit test, `[0-9a-fA-F]`. -/
def isHexDigitChar (c : Char) : Bool :=
  ('0' ≤ c && c ≤ '9') || ('a' ≤ c && c ≤ 'f') || ('A' ≤ c && c ≤ 'F')

/-- Whitespace characters recognised by JS `trim` / `\s` (common subset). -/
def isWsChar (c : Char) : Bool := c = ' ' || c = '\t' || c = '\n' || c = '\r'

/-- Numeric value of a digit character. -/
def digitVal (c : Char) : Nat := c.toNat - '0'.toNat

/-- Big-endian digit string to number: `digitsToNat "123" = 123`. -/
def digitsToNat (s : List Char) : Nat :=
  s.foldl (fun a c => 10 * a + digitVal c) 0

/-- Core of decimal printing: digits of `n`, most significant first,
empty for `n = 0` (caller handles the zero case). -/
def natToDigitsCore (n : Nat) : List Char :=
  if h : n = 0 then []
  else natToDigitsCore (n / 10) ++ [Nat.digitChar (n % 10)]
decreasing_by exact Nat.div_lt_self (Nat.pos_of_ne_zero h) (by norm_num)

/-- Decimal representation of a `Nat` (JS `BigInt.prototype.toString`):
no leading zeros, and `"0"` for zero. -/
def natToDigits (n : Nat) : List Char :=
  if n = 0 then ['0'] else natToDigitsCore n

/-- JS `String.prototype.trim` on a character list. -/
def trimChars (s : List Char) : List Char :=
  ((s.dropWhile isWsChar).reverse.dropWhile isWsChar).reverse

/-- Drop leading `'0'` characters while at least one further character
remains (the "leave at least one digit" trimming loops of ethers
`FixedNumber.toString`). -/
def stripZerosKeepOne : List Char → List Char
  | [] => []
  | [c] => [c]
  | c :: c2 :: rest =>
      if c = '0' then stripZerosKeepOne (c2 :: rest) else c :: c2 :: rest

/-! ### Pricing (`web3_service/src/trading/pricing.ts`)

`parseDecimalToUnits` cleans the input (`trim`, drop every `','`), tests it
against `^\d+(\.\d+)?$`, and hands it to ethers v6 `parseUnits`, which is
`FixedNumber.fromString(value, { decimals, width: 512 }).value`:
it requires `0 ≤ decimals ≤ 80` (format assertion), throws a numeric
`underflow` fault when the fractional part has more than `decimals` digits,
pads the fraction to exactly `decimals` digits, reads the concatenated
digits as an integer and asserts it fits the signed 512-bit width.
`formatUnitsHuman` is ethers v6 `formatUnits`, i.e.
`FixedNumber.fromValue(value, decimals, { decimals, width: 512 }).toString()`:
same format/width assertions, then decimal rendering with a `'.'` inserted
`decimals` places from the right, keeping at least one digit on each side
and trimming leading/trailing zeros. -/

/-- Failure modes of the pricing conversions. `malformed` is the
`Invalid amount` error thrown by `parseDecimalToUnits` itself; the other
three are the ethers v6 `FixedNumber` assertions described above. -/
inductive AmountError where
  | malformed
  | badDecimals
  | underflow
  | overflow
deriving DecidableEq

/-- Decompose a character list according to `^\d+(\.\d+)?$`: returns the
whole-part digits and the (possibly empty) fraction digits, or `none` when
the regex does not match. -/
def matchAmount (s : List Char) : Option (List Char × List Char) :=
  let whole := s.takeWhile isDigitChar
  let rest := s.dropWhile isDigitChar
  if whole.isEmpty then none
  else
    match rest with
    | [] => some (whole, [])
    | '.' :: frac =>
        if !frac.isEmpty && frac.all isDigitChar then some (whole, frac) else none
    | _ => none

/-- The signed 512-bit overflow bound of ethers `{ width: 512 }`. -/
def fixedWidthBound : Nat := 2 ^ 511

/-- Ethers v6 `parseUnits` on an input already split as `whole.frac`
(the caller's regex guarantees the shape accepted by
`FixedNumber.fromString`). -/
def parseUnitsCore (whole frac : List Char) (decimals : Nat) : Except AmountError Nat :=
  if 80 < decimals then .error .badDecimals
  else if decimals < frac.length then .error .underflow
  else
    let padded := frac ++ List.replicate (decimals - frac.length) '0'
    let v := digitsToNat (whole ++ padded)
    if v < fixedWidthBound then .ok v else .error .overflow

/-- The cleaning step of `parseDecimalToUnits`:
`human.trim().replace(/,/g, '')`. -/
def cleanAmount (s : List Char) : List Char :=
  (trimChars s).filter (fun c => c ≠ ',')

/-- `parseDecimalToUnits(human, decimals)` from `pricing.ts`. -/
def parseDecimalToUnitsCore (human : List Char) (decimals : Nat) : Except AmountError Nat :=
  match matchAmount (cleanAmount human) with
  | none => .error .malformed
  | some (whole, frac) => parseUnitsCore whole frac decimals

/-- `parseDecimalToUnits` on Lean strings (`toRawUnits` of the spec). -/
def parseDecimalToUnits (human : String) (decimals : Nat) : Except AmountError Nat :=
  parseDecimalToUnitsCore human.toList decimals

/-- Decimal rendering of ethers v6 `FixedNumber.toString` for a
non-negative value: plain digits when `decimals = 0`, otherwise pad with
leading zeros until the string is longer than `decimals`, insert the dot
`decimals` places from the right, and trim redundant zeros on both sides
keeping at least one digit each. -/
def toStringFixed (val : Nat) (decimals : Nat) : List Char :=
  let str := natToDigits val
  if decimals = 0 then str
  else
    let padded := List.replicate (decimals + 1 - str.length) '0' ++ str
    let whole := padded.take (padded.length - decimals)
    let frac := padded.drop (padded.length - decimals)
    stripZerosKeepOne whole ++ '.' :: (stripZerosKeepOne frac.reverse).reverse

/-- `formatUnitsHuman(amount, decimals)` from `pricing.ts` (`toHumanUnits`
of the spec), i.e. ethers v6 `formatUnits` restricted to non-negative
amounts. -/
def formatUnitsHuman (amount : Nat) (decimals : Nat) : Except AmountError String :=
  if 80 < decimals then .error .badDecimals
  else if amount < fixedWidthBound then .ok ⟨toStringFixed amount decimals⟩
  else .error .overflow

/-- Round trip used by claim C7: format a raw amount and parse it back. -/
def rawRoundTrip (raw : Nat) (decimals : Nat) : Except AmountError Nat :=
  match formatUnitsHuman raw decimals with
  | .ok s => parseDecimalToUnits s decimals
  | .error e => .error e

/-! ### Indexer data model (`web3_service/src/indexer/types.ts`) -/

/-- `NFTInfo` of the order data model. -/
structure NFTInfo where
  tokenId : Nat
  collectionAddr : String
  amount : Nat
deriving DecidableEq

/-- `Order` of the order data model (`side`/`saleKind` are JS numbers,
the big-integer fields are modelled as `Nat`). -/
structure Order where
  side : Nat
  saleKind : Nat
  maker : String
  nft : NFTInfo
  price : Nat
  currency : String
  expiry : Nat
  salt : Nat
deriving DecidableEq

/-- `IndexedOrder`: an order plus its derived status. The status is the
literal string `"open"`, `"cancelled"` or `"filled"`, exactly as persisted
by the TypeScript code. -/
structure IndexedOrder where
  orderKey : String
  order : Order
  status : String
  firstSeenBlock : Nat
  lastUpdateBlock : Nat
deriving DecidableEq

/-- The `ordersByKey` JS object, modelled as an association list with
first-match lookup semantics. -/
def OrdersMap : Type := List (String × IndexedOrder)

/-- `IndexState` as persisted to the index JSON file. -/
structure IndexState where
  chainId : Nat
  orderbook : String
  lastScannedBlock : Nat
  ordersByKey : OrdersMap

/-- Lookup in `ordersByKey` (`state.ordersByKey[orderKey]`). -/
def lookupKey : OrdersMap → String → Option IndexedOrder
  | [], _ => none
  | (k, v) :: rest, key => if k = key then some v else lookupKey rest key

/-- Insert-or-replace in `ordersByKey`
(`state.ordersByKey[orderKey] = entry`). -/
def setKey : OrdersMap → String → IndexedOrder → OrdersMap
  | [], key, v => [(key, v)]
  | (k, w) :: rest, key, v =>
      if k = key then (key, v) :: rest else (k, w) :: setKey rest key v

/-- `normAddr` from `orderbook-indexer.ts`: lowercase the address
(`a.toLowerCase()`, written over the character list so that it is
kernel-computable). -/
def normAddr (a : String) : String := ⟨a.data.map Char.toLower⟩

/-- `isSellOrder` from `orderbook-indexer.ts`:
`o.side === 0 && o.saleKind === 1`. -/
def isSellOrder (o : Order) : Bool := o.side = 0 && o.saleKind = 1

/-- `isExpired` from `orderbook-indexer.ts`: `expiry == 0` means never;
otherwise expired when `expiry <= nowSec`. -/
def isExpired (o : Order) (nowSec : Nat) : Bool :=
  if o.expiry = 0 then false else o.expiry ≤ nowSec

/-! ### scanRange event processing (`orderbook-indexer.ts`)

`scanRange` fetches the `LogMake`, `LogCancel` and `LogMatch` logs of a
block range and folds them into `state.ordersByKey`, makes first, then
cancels, then matches. Logs that fail to parse are skipped by
`try { iface.parseLog(log) } catch { continue }`; the embedded log lists
contain only the parsed logs. For a make log the code re-fetches the full
order tuple from the contract (`ob.orders(orderKey)`); `fullOrder = none`
models a failed/empty lookup, which is skipped. -/

/-- A parsed `LogMake` entry, together with the outcome of the
`ob.orders(orderKey)` re-fetch. -/
structure MakeLog where
  orderKey : String
  blockNumber : Nat
  fullOrder : Option Order

/-- A parsed `LogCancel` entry. -/
structure CancelLog where
  orderKey : String
  blockNumber : Nat

/-- A parsed `LogMatch` entry (the event carries both orders; only the
`side` fields of the two orders are consulted). -/
structure MatchLog where
  makeOrderKey : String
  takeOrderKey : String
  makeSide : Nat
  takeSide : Nat
  blockNumber : Nat

/-- Address/field normalisation applied to a freshly fetched order before
it is stored (`toPersistedOrder`/the explicit `normAddr` calls in the make
branch of `scanRange`). -/
def normalizeOrder (o : Order) : Order :=
  { o with
    maker := normAddr o.maker
    currency := normAddr o.currency
    nft := { o.nft with collectionAddr := normAddr o.nft.collectionAddr } }

/-- The make branch of `scanRange`: skip unfetchable and non-sell orders,
then upsert, preserving `firstSeenBlock` of an existing entry and
preserving a `"filled"` status (`existing?.status === 'filled' ? 'filled'
: 'open'`). -/
def applyMakeLog (m : OrdersMap) (l : MakeLog) : OrdersMap :=
  match l.fullOrder with
  | none => m
  | some o =>
      if !isSellOrder o then m
      else
        let existing := lookupKey m l.orderKey
        let status := match existing with
          | some e => if e.status = "filled" then "filled" else "open"
          | none => "open"
        let firstSeen := match existing with
          | some e => e.firstSeenBlock
          | none => l.blockNumber
        setKey m l.orderKey
          { orderKey := l.orderKey
            order := normalizeOrder o
            status := status
            firstSeenBlock := firstSeen
            lastUpdateBlock := l.blockNumber }

/-- The cancel branch of `scanRange`: unknown keys are ignored, otherwise
the status is set to `"cancelled"` unconditionally. -/
def applyCancelLog (m : OrdersMap) (l : CancelLog) : OrdersMap :=
  match lookupKey m l.orderKey with
  | none => m
  | some e =>
      setKey m l.orderKey
        { e with status := "cancelled", lastUpdateBlock := l.blockNumber }

/-- The sell-side key selection of the match branch:
`makeSide === 0 ? makeOrderKey : takeSide === 0 ? takeOrderKey : null`. -/
def matchSellKey (l : MatchLog) : Option String :=
  if l.makeSide = 0 then some l.makeOrderKey
  else if l.takeSide = 0 then some l.takeOrderKey
  else none

/-- The match branch of `scanRange`: resolve the sell-side key; unknown or
absent keys are ignored, otherwise the status is set to `"filled"`
unconditionally. -/
def applyMatchLog (m : OrdersMap) (l : MatchLog) : OrdersMap :=
  match matchSellKey l with
  | none => m
  | some key =>
      match lookupKey m key with
      | none => m
      | some e =>
          setKey m key
            { e with status := "filled", lastUpdateBlock := l.blockNumber }

/-- `scanRange` over already-fetched log lists: makes, then cancels, then
matches, in log order. -/
def scanRange (m : OrdersMap) (makes : List MakeLog) (cancels : List CancelLog)
    (matchLogs : List MatchLog) : OrdersMap :=
  List.foldl applyMatchLog
    (List.foldl applyCancelLog (List.foldl applyMakeLog m makes) cancels) matchLogs

/-! ### Allow-list parsing (`parseAllowlist`, identical in
`orderbook-indexer.ts` and `risk-checker.ts`)

`raw.split(/[,\s]+/g).map(s => s.trim()).filter(Boolean)` splits the raw
configuration string on runs of commas/whitespace and drops empty pieces;
each piece matching `^0x[0-9a-fA-F]{40}$` is lowercased and added to the
set. The set is modelled as the list of accepted (lowercased) entries. -/

/-- Separator characters of the split regex `[,\s]+`. -/
def isSepChar (c : Char) : Bool := c = ',' || isWsChar c

/-- Split on runs of separators, dropping empty pieces; `acc` holds the
current piece reversed. -/
def splitPartsAux : List Char → List Char → List (List Char)
  | [], acc => if acc.isEmpty then [] else [acc.reverse]
  | c :: rest, acc =>
      if isSepChar c then
        if acc.isEmpty then splitPartsAux rest []
        else acc.reverse :: splitPartsAux rest []
      else splitPartsAux rest (c :: acc)

/-- The comma/whitespace-separated pieces of a string. -/
def splitParts (s : List Char) : List (List Char) := splitPartsAux s []

/-- The address pattern `^0x[0-9a-fA-F]{40}$`. -/
def isHexAddr : List Char → Bool
  | '0' :: 'x' :: rest => rest.length = 40 && rest.all isHexDigitChar
  | _ => false

/-- `parseAllowlist(raw)`: empty for a missing (or empty, hence falsy)
string, otherwise the lowercased pieces that match the address pattern. -/
def parseAllowlist (raw : Option String) : List String :=
  match raw with
  | none => []
  | some s =>
      ((splitParts s.toList).filter isHexAddr).map (fun p => String.mk (p.map Char.toLower))

/-- Membership test standing in for `Set.prototype.has`. -/
def memStr : List String → String → Bool
  | [], _ => false
  | x :: rest, s => if x = s then true else memStr rest s

/-! ### Query surface and sync (`orderbook-indexer.ts`) -/

/-- The indexer configuration fields consulted by the embedded operations
(`IndexerConfig` in `orderbook-indexer.ts`). -/
structure IndexerCfg where
  CHAIN_ID : Nat
  ORDERBOOK_ADDRESS : String
  USDOL_ADDRESS : String
  INDEXER_FROM_BLOCK : Nat
  COLLECTION_ALLOWLIST : Option String

/-- The per-entry filter of `getActiveSellOrders` (the chain of `continue`
guards of the entries loop). -/
def activeSellPred (cfg : IndexerCfg) (allowlist : List String) (nowSec : Nat)
    (e : IndexedOrder) : Bool :=
  e.status = "open" && isSellOrder e.order
    && normAddr e.order.currency = normAddr cfg.USDOL_ADDRESS
    && e.order.nft.amount = 1
    && !isExpired e.order nowSec
    && (!(0 < allowlist.length) || memStr allowlist (normAddr e.order.nft.collectionAddr))

/-- `getActiveSellOrders()` over a loaded snapshot: filter the entries of
`ordersByKey` by the guards above (the allow-list is parsed from the
configuration; it restricts only when non-empty). -/
def getActiveSellOrders (cfg : IndexerCfg) (state : IndexState) (nowSec : Nat) :
    List IndexedOrder :=
  (state.ordersByKey.map Prod.snd).filter
    (activeSellPred cfg (parseAllowlist cfg.COLLECTION_ALLOWLIST) nowSec)

/-- The fresh state used when no persisted state exists or the persisted
`chainId`/`orderbook` mismatch the configuration
(`lastScannedBlock = Math.max(0, INDEXER_FROM_BLOCK - 1)`, truncated
subtraction matches `Math.max(0, ·)`). -/
def freshState (cfg : IndexerCfg) : IndexState :=
  { chainId := cfg.CHAIN_ID
    orderbook := cfg.ORDERBOOK_ADDRESS
    lastScannedBlock := cfg.INDEXER_FROM_BLOCK - 1
    ordersByKey := [] }

/-- The chunk loop of `sync()`: starting at `lo`, scan
`[lo, min head (lo+step-1)]`, set `lastScannedBlock` to the chunk end,
persist, and continue at `lo + step` while `lo ≤ head`. `scan` stands for
`scanRange` applied to the logs the chain returns for the chunk. Returns
the scanned ranges, the persisted snapshots (in write order) and the final
in-memory state. -/
def syncChunks (scan : IndexState → Nat → Nat → OrdersMap) (head step : Nat)
    (hstep : 0 < step) (lo : Nat) (st : IndexState) :
    List (Nat × Nat) × List IndexState × IndexState :=
  if h : head < lo then ([], [], st)
  else
    let chunkEnd := min head (lo + step - 1)
    let st' : IndexState :=
      { st with ordersByKey := scan st lo chunkEnd, lastScannedBlock := chunkEnd }
    let rest := syncChunks scan head step hstep (lo + step) st'
    ((lo, chunkEnd) :: rest.1, st' :: rest.2.1, rest.2.2)
termination_by head + 1 - lo
decreasing_by omega

/-- `sync()` without the RPC plumbing: select/reset the loaded state,
compute the start block (`INDEXER_FROM_BLOCK` when positive, otherwise
`max(1, head - 50000)` to cope with pruned nodes, then
`max(fromBlock, lastScannedBlock + 1)`), return immediately when the start
exceeds the head, and otherwise run the chunk loop. -/
def sync (cfg : IndexerCfg) (loaded : Option IndexState) (head step : Nat)
    (hstep : 0 < step) (scan : IndexState → Nat → Nat → OrdersMap) :
    List (Nat × Nat) × List IndexState × IndexState :=
  let st := match loaded with
    | some ex =>
        if ex.chainId = cfg.CHAIN_ID ∧ normAddr ex.orderbook = normAddr cfg.ORDERBOOK_ADDRESS
        then ex else freshState cfg
    | none => freshState cfg
  let fromBlock := if 0 < cfg.INDEXER_FROM_BLOCK then cfg.INDEXER_FROM_BLOCK
    else max 1 (head - 50000)
  let start := max fromBlock (st.lastScannedBlock + 1)
  if head < start then ([], [], st)
  else syncChunks scan head step hstep start st

/-! ### Resilient log fetch (`getLogsSafe` in `orderbook-indexer.ts`)

The source keeps an explicit stack of `{from, to, attempts}` ranges, pops
one at a time, and on a fetch failure either bisects the range (pushing the
right half, then the left half, so the left is processed first) or, for a
single-block range, sleeps `500ms * (attempts + 1)` and retries while
`attempts < 2`, rethrowing the fetch error otherwise. The fetch (including
the preceding `ensureProvider`) is modelled by the oracle `fetch`, which
may depend on the attempt counter; sleeps are recorded in a list of
durations (in ms). -/

/-- A stack entry of `getLogsSafe`. -/
structure LogFrame where
  lo : Nat
  hi : Nat
  attempts : Nat
deriving DecidableEq

/-- Termination measure of one stack entry: bisection strictly shrinks
ranges, retries strictly consume the attempt budget. -/
def frameMeasure (f : LogFrame) : Nat :=
  if f.lo < f.hi then 5 * (f.hi + 1 - f.lo) - 2 else 3 - f.attempts

/-- Termination measure of the whole stack. -/
def stackMeasure (s : List LogFrame) : Nat := (s.map frameMeasure).sum

/-- The worklist loop of `getLogsSafe`: returns the sleeps performed and
either the concatenated logs or the propagated fetch error. -/
def getLogsSafeGo {L E : Type} (fetch : Nat → Nat → Nat → Except E (List L)) :
    List LogFrame → List L → List Nat → List Nat × Except E (List L)
  | [], out, sleeps => (sleeps, .ok out)
  | f :: stack, out, sleeps =>
    match fetch f.lo f.hi f.attempts with
    | .ok logs => getLogsSafeGo fetch stack (out ++ logs) sleeps
    | .error e =>
      if f.lo < f.hi then
        let mid := (f.lo + f.hi) / 2
        getLogsSafeGo fetch
          (⟨f.lo, mid, f.attempts + 1⟩ :: ⟨mid + 1, f.hi, f.attempts + 1⟩ :: stack)
          out sleeps
      else if f.attempts < 2 then
        getLogsSafeGo fetch (⟨f.lo, f.hi, f.attempts + 1⟩ :: stack) out
          (sleeps ++ [500 * (f.attempts + 1)])
      else (sleeps, .error e)
termination_by s _ _ => 2 * stackMeasure s + s.length
decreasing_by
  all_goals
    simp only [stackMeasure, List.map_cons, List.sum_cons, List.length_cons, frameMeasure]
  all_goals split_ifs <;> omega

/-- `getLogsSafe(address, topic, fromBlock, toBlock)`: run the worklist
starting from the single requested range with a fresh attempt counter. -/
def getLogsSafe {L E : Type} (fetch : Nat → Nat → Nat → Except E (List L))
    (fromBlock toBlock : Nat) : List Nat × Except E (List L) :=
  getLogsSafeGo fetch [⟨fromBlock, toBlock, 0⟩] [] []

/-! ### Risk checker (`web3_service/src/risk/risk-checker.ts`)

`checkRisk(intent, selectedOrders)` applies, in order: the quantity cap,
the collection allow-list (only when the parsed allow-list is non-empty;
the code compares `getAddress(addr).toLowerCase()`, i.e. lowercased valid
addresses, modelled by `normAddr`), the raw per-unit and total ceilings
(`!= null` tests, so a present `0n` counts), and the human-decimal
ceilings (JS truthiness, so an empty string is skipped). Resolving the
quote token's decimals needs a healthy provider and is attempted only when
at least one human ceiling is present; `RiskWorld` supplies the provider
health and the resolved decimals. -/

/-- Configuration fields of `RiskChecker` consulted by `checkRisk`. -/
structure RiskCfg where
  USDOL_ADDRESS : String
  MAX_QTY : Nat
  COLLECTION_ALLOWLIST : Option String

/-- `RiskIntent` from `risk-checker.ts`. -/
structure RiskIntent where
  quantity : Nat
  maxUnitPriceUsdOL : Option String
  maxTotalUsdOL : Option String
  maxUnitPriceRaw : Option Nat
  maxTotalRaw : Option Nat

/-- External collaborators of `checkRisk`: provider availability and the
quote token's `decimals()`. -/
structure RiskWorld where
  healthy : Bool
  usdolDecimals : Nat

/-- The distinct rejection reasons thrown by `checkRisk`. -/
inductive RiskError where
  | quantityExceeded
  | collectionNotAllowed
  | unitPriceRawExceeded
  | totalRawExceeded
  | noEndpoint
  | amountFault (e : AmountError)
  | unitPriceHumanExceeded
  | totalHumanExceeded
deriving DecidableEq

/-- JS truthiness of an optional string field (`undefined` and `""` are
falsy). -/
def truthyStr : Option String → Bool
  | none => false
  | some s => s ≠ ""

/-- Sum of the selected orders' prices
(`selectedOrders.reduce((acc, o) => acc + o.order.price, 0n)`). -/
def totalPrice (orders : List Order) : Nat :=
  orders.foldl (fun acc o => acc + o.price) 0

/-- First selected order whose collection is not in the allow-list. -/
def findDisallowed (allowlist : List String) (orders : List Order) : Option Order :=
  orders.find? (fun o => !memStr allowlist (normAddr o.nft.collectionAddr))

/-- One human-decimal ceiling check: skipped for an absent or empty
string; otherwise parse the ceiling (propagating a parse failure) and
throw `err` when the comparison `exceeded` fires. -/
def humanCeilCheck (ceil : Option String) (decimals : Nat) (exceeded : Nat → Bool)
    (err : RiskError) : Except RiskError Unit :=
  match ceil with
  | none => .ok ()
  | some s =>
      if s = "" then .ok ()
      else
        match parseDecimalToUnits s decimals with
        | .error e => .error (.amountFault e)
        | .ok m => if exceeded m then .error err else .ok ()

/-- The human-decimal ceiling block of `checkRisk`, reached only when at
least one human ceiling is truthy: resolve the quote token decimals (which
needs a healthy provider), then check the per-unit ceiling, then the total
ceiling. -/
def checkHumanCeilings (intent : RiskIntent) (orders : List Order) (w : RiskWorld) :
    Except RiskError Unit :=
  if !w.healthy then .error .noEndpoint
  else
    match humanCeilCheck intent.maxUnitPriceUsdOL w.usdolDecimals
        (fun m => orders.any (fun o => m < o.price)) .unitPriceHumanExceeded with
    | .error e => .error e
    | .ok _ =>
        humanCeilCheck intent.maxTotalUsdOL w.usdolDecimals
          (fun m => totalPrice orders > m) .totalHumanExceeded

/-- The checks of `checkRisk` after the quantity gate: allow-list, raw
per-unit ceiling, raw total ceiling, then the human-decimal ceilings. -/
def checkRiskRest (cfg : RiskCfg) (intent : RiskIntent) (orders : List Order)
    (w : RiskWorld) : Except RiskError Unit :=
  let allowlist := parseAllowlist cfg.COLLECTION_ALLOWLIST
  if 0 < allowlist.length ∧ (findDisallowed allowlist orders).isSome then
    .error .collectionNotAllowed
  else
    let unitRawViolation : Bool := match intent.maxUnitPriceRaw with
      | some m => orders.any (fun o => m < o.price)
      | none => false
    if unitRawViolation then .error .unitPriceRawExceeded
    else
      let totalRawViolation : Bool := match intent.maxTotalRaw with
        | some m => totalPrice orders > m
        | none => false
      if totalRawViolation then .error .totalRawExceeded
      else if truthyStr intent.maxUnitPriceUsdOL || truthyStr intent.maxTotalUsdOL then
        checkHumanCeilings intent orders w
      else .ok ()

/-- `checkRisk(intent, selectedOrders)`: the quantity gate, then the rest. -/
def checkRisk (cfg : RiskCfg) (intent : RiskIntent) (orders : List Order) (w : RiskWorld) :
    Except RiskError Unit :=
  if cfg.MAX_QTY < intent.quantity then .error .quantityExceeded
  else checkRiskRest cfg intent orders w

/-! ### Order matcher (`web3_service/src/trading/match-order.ts`)

`matchOrder(cfg, sell, opts)` picks a provider (throwing when none is
healthy), checks the sell order's currency against the configured quote
token (`getAddress` on both sides, i.e. case-insensitive equality of valid
addresses, modelled by `normAddr`), runs `ensureAllowance`, builds the
complementary buy order (pure), returns `null` in dry-run mode, and
otherwise submits the match transaction and inspects the receipt.
On-chain interactions are recorded as an effect list. -/

/-- Configuration fields of the matcher consulted here. -/
structure OrderMatchCfg where
  ORDERBOOK_ADDRESS : String
  USDOL_ADDRESS : String

/-- `MatchOrderOptions`. -/
structure MatchOpts where
  dryRun : Bool
  approveMax : Bool

/-- On-chain interactions the matcher can perform. -/
inductive ChainEffect where
  | allowanceRead (owner spender : String)
  | approveTx (spender : String) (amount : Nat)
  | matchTx
deriving DecidableEq

/-- External collaborators of the matcher: provider health, the executing
wallet's address, the current ERC20 allowance, the submitted transaction's
hash and receipt status (`none` models a missing receipt), the clock and
the random salt draw. -/
structure MatchWorld where
  healthy : Bool
  walletAddress : String
  allowance : Nat
  txHash : String
  receiptStatus : Option Nat
  nowSec : Nat
  randomSalt : Nat

/-- Errors thrown by `matchOrder`. -/
inductive MatchError where
  | noEndpoint
  | currencyMismatch
  | executionFailed
deriving DecidableEq

/-- `MaxUint256` from ethers. -/
def maxUint256 : Nat := 2 ^ 256 - 1

/-- `ensureAllowance(cfg, wallet, required, opts)`: read the current
allowance; if sufficient, done; otherwise pick the approval amount
(`approveMax ? MaxUint256 : required`), return before submitting in
dry-run mode, and otherwise submit the approval and wait for it. -/
def ensureAllowance (cfg : OrderMatchCfg) (w : MatchWorld) (required : Nat)
    (opts : MatchOpts) : List ChainEffect :=
  let reads := [ChainEffect.allowanceRead w.walletAddress cfg.ORDERBOOK_ADDRESS]
  if required ≤ w.allowance then reads
  else
    let amount := if opts.approveMax then maxUint256 else required
    if opts.dryRun then reads
    else reads ++ [ChainEffect.approveTx cfg.ORDERBOOK_ADDRESS amount]

/-- `buildBuyOrderFromSell(sell, buyer, ttlSec = 300)`: mirror the NFT,
price and currency, set the maker to the executing wallet, expire
`ttlSec` seconds from now, and re-roll a zero salt to `1`. -/
def buildBuyOrderFromSell (sell : Order) (buyer : String) (nowSec : Nat)
    (randomSalt : Nat) (ttlSec : Nat := 300) : Order :=
  { side := 1
    saleKind := 1
    maker := buyer
    nft := { tokenId := sell.nft.tokenId
             collectionAddr := sell.nft.collectionAddr
             amount := 1 }
    price := sell.price
    currency := sell.currency
    expiry := nowSec + ttlSec
    salt := if randomSalt = 0 then 1 else randomSalt }

/-- `matchOrder(cfg, sell, opts)`: the effect trace and the outcome
(`some hash`, `none` for dry-run, or a thrown error). -/
def matchOrder (cfg : OrderMatchCfg) (sell : Order) (opts : MatchOpts) (w : MatchWorld) :
    List ChainEffect × Except MatchError (Option String) :=
  if !w.healthy then ([], .error .noEndpoint)
  else if normAddr sell.currency ≠ normAddr cfg.USDOL_ADDRESS then
    ([], .error .currencyMismatch)
  else
    let effs := ensureAllowance cfg w sell.price opts
    let _buy := buildBuyOrderFromSell sell w.walletAddress w.nowSec w.randomSalt
    if opts.dryRun then (effs, .ok none)
    else
      let effs2 := effs ++ [ChainEffect.matchTx]
      match w.receiptStatus with
      | none => (effs2, .ok (some w.txHash))
      | some s => if s ≠ 1 then (effs2, .error .executionFailed)
        else (effs2, .ok (some w.txHash))

/-! ### Concrete fixtures used by counterexamples and witnesses -/

/-- A well-formed sell order (side 0, sale kind 1, unit amount). -/
def sampleSell : Order :=
  { side := 0
    saleKind := 1
    maker := "0xmaker"
    nft := { tokenId := 7, collectionAddr := "0xcccccccccccccccccccccccccccccccccccccccc", amount := 1 }
    price := 100
    currency := "0xbf45ba6cc5ded3541e0e754232949b374f8c317a"
    expiry := 0
    salt := 1 }

/-- The sample sell order indexed with a `"cancelled"` status. -/
def sampleCancelledEntry : IndexedOrder :=
  { orderKey := "0xkey1", order := sampleSell, status := "cancelled"
    firstSeenBlock := 5, lastUpdateBlock := 6 }

/-- The sample sell order indexed with a `"filled"` status. -/
def sampleFilledEntry : IndexedOrder :=
  { orderKey := "0xkey1", order := sampleSell, status := "filled"
    firstSeenBlock := 5, lastUpdateBlock := 6 }

/-- An indexer configuration with `INDEXER_FROM_BLOCK = 0` (the untouched
default of `loadIndexerConfig` when `INDEX_FROM_BLOCK` is unset). -/
def cfgFromZero : IndexerCfg :=
  { CHAIN_ID := 1
    ORDERBOOK_ADDRESS := "0xob"
    USDOL_ADDRESS := "0xbf45ba6cc5ded3541e0e754232949b374f8c317a"
    INDEXER_FROM_BLOCK := 0
    COLLECTION_ALLOWLIST := none }

/-- A persisted state matching `cfgFromZero` with a small
`lastScannedBlock`. -/
def stateLast10 : IndexState :=
  { chainId := 1, orderbook := "0xob", lastScannedBlock := 10, ordersByKey := [] }

/-- A scan oracle that reports no events in any range. -/
def scanNoEvents : IndexState → Nat → Nat → OrdersMap := fun st _ _ => st.ordersByKey

/-- Matcher configuration fixture. -/
def sampleMatchCfg : OrderMatchCfg :=
  { ORDERBOOK_ADDRESS := "0xob"
    USDOL_ADDRESS := "0xBF45BA6CC5DED3541E0E754232949B374F8C317A" }

/-- Matcher world fixture: healthy provider, zero allowance. -/
def sampleMatchWorld : MatchWorld :=
  { healthy := true, walletAddress := "0xwallet", allowance := 0
    txHash := "0xhash", receiptStatus := some 1, nowSec := 1000, randomSalt := 9 }

/-- A sell order whose currency does not match `sampleMatchCfg`. -/
def sampleSellWrongCurrency : Order :=
  { sampleSell with currency := "0x1111111111111111111111111111111111111111" }

/-- Risk configuration fixture with `MAX_QTY = 5`. -/
def sampleRiskCfg : RiskCfg :=
  { USDOL_ADDRESS := "0xbf45ba6cc5ded3541e0e754232949b374f8c317a"
    MAX_QTY := 5
    COLLECTION_ALLOWLIST := none }

/-- An intent with the given quantity and no ceilings. -/
def plainIntent (q : Nat) : RiskIntent :=
  { quantity := q, maxUnitPriceUsdOL := none, maxTotalUsdOL := none
    maxUnitPriceRaw := none, maxTotalRaw := none }

/-- Risk world fixture. -/
def sampleRiskWorld : RiskWorld := { healthy := true, usdolDecimals := 6 }

/-- A make log re-announcing the sample sell order at block 9. -/
def sampleMakeLog : MakeLog :=
  { orderKey := "0xkey1", blockNumber := 9, fullOrder := some sampleSell }

/-- A cancel log for the sample key at block 9. -/
def sampleCancelLog : CancelLog := { orderKey := "0xkey1", blockNumber := 9 }

/-- A match log whose sell side is the sample key, at block 9. -/
def sampleMatchLog : MatchLog :=
  { makeOrderKey := "0xkey1", takeOrderKey := "0xkey2", makeSide := 0, takeSide := 1,
    blockNumber := 9 }

/-! ### Helper lemmas -/

theorem lookupKey_setKey_self (m : OrdersMap) (k : String) (v : IndexedOrder) :
    lookupKey (setKey m k v) k = some v := by
  induction m with
  | nil => simp [setKey, lookupKey]
  | cons p rest ih =>
      by_cases h : p.1 = k
      · simp [setKey, h, lookupKey]
      · simp [setKey, h, lookupKey, ih]


theorem checkHumanCeilings_ne_quantity (intent : RiskIntent) (orders : List Order)
    (w : RiskWorld) : checkHumanCeilings intent orders w ≠ .error .quantityExceeded := by
  have hhc : ∀ (c : Option String) (d : Nat) (f : Nat → Bool) (err : RiskError)
      (x : RiskError), humanCeilCheck c d f err = .error x →
      x = err ∨ ∃ a, x = .amountFault a := by
    intro c d f err x h
    unfold humanCeilCheck at h
    split at h
    · simp_all
    · split at h
      · simp_all
      · split at h
        · rename_i e heq
          right
          exact ⟨e, by simpa using h.symm⟩
        · split at h <;> simp_all
  unfold checkHumanCeilings
  split
  · simp
  · split
    · rename_i e heq
      intro hc
      rcases hhc _ _ _ _ _ heq with h | ⟨a, h⟩ <;> simp_all
    · intro hc
      rcases hhc _ _ _ _ _ hc with h | ⟨a, h⟩ <;> simp_all

theorem checkRiskRest_ne_quantity (cfg : RiskCfg) (intent : RiskIntent)
    (orders : List Order) (w : RiskWorld) :
    checkRiskRest cfg intent orders w ≠ .error .quantityExceeded := by
  have hhc := checkHumanCeilings_ne_quantity intent orders w
  intro h
  cases hu : intent.maxUnitPriceRaw <;> cases ht : intent.maxTotalRaw <;>
    simp only [checkRiskRest, hu, ht] at h <;>
    split_ifs at h <;> simp_all

theorem checkRisk_quantity_iff (cfg : RiskCfg) (intent : RiskIntent) (orders : List Order)
    (w : RiskWorld) :
    checkRisk cfg intent orders w = .error .quantityExceeded ↔
      cfg.MAX_QTY < intent.quantity := by
  unfold checkRisk
  split
  · simp_all
  · rename_i hq
    exact ⟨fun h => absurd h (checkRiskRest_ne_quantity cfg intent orders w),
           fun h => absurd h hq⟩

theorem not_isExpired_iff (o : Order) (nowSec : Nat) :
    (!isExpired o nowSec) = true ↔ (o.expiry = 0 ∨ nowSec < o.expiry) := by
  unfold isExpired
  split <;> simp <;> omega

theorem allowGuard_iff (l : List String) (a : String) :
    (!(decide (0 < l.length)) || memStr l a) = true ↔ (l ≠ [] → memStr l a = true) := by
  cases l <;> simp [memStr]

theorem applyMakeLog_existing (m : OrdersMap) (l : MakeLog) (e : IndexedOrder)
    (hlook : lookupKey m l.orderKey = some e) :
    ((lookupKey (applyMakeLog m l) l.orderKey).map IndexedOrder.firstSeenBlock
        = some e.firstSeenBlock)
    ∧ (e.status = "filled" →
        (lookupKey (applyMakeLog m l) l.orderKey).map IndexedOrder.status = some "filled") := by
  unfold applyMakeLog
  cases hfo : l.fullOrder with
  | none => simp [hlook]
  | some o =>
      by_cases hs : isSellOrder o
      · simp [hs, hlook, lookupKey_setKey_self]
      · simp [hs, hlook]

theorem applyCancelLog_existing (m : OrdersMap) (l : CancelLog) (e : IndexedOrder)
    (hlook : lookupKey m l.orderKey = some e) :
    lookupKey (applyCancelLog m l) l.orderKey =
      some { e with status := "cancelled", lastUpdateBlock := l.blockNumber } := by
  unfold applyCancelLog
  simp [hlook, lookupKey_setKey_self]

theorem applyMatchLog_existing (m : OrdersMap) (l : MatchLog) (k : String) (e : IndexedOrder)
    (hk : matchSellKey l = some k) (hlook : lookupKey m k = some e) :
    lookupKey (applyMatchLog m l) k =
      some { e with status := "filled", lastUpdateBlock := l.blockNumber } := by
  unfold applyMatchLog
  simp [hk, hlook, lookupKey_setKey_self]

theorem applyCancelLog_unknown (m : OrdersMap) (l : CancelLog)
    (hlook : lookupKey m l.orderKey = none) : applyCancelLog m l = m := by
  unfold applyCancelLog
  simp [hlook]

theorem applyMatchLog_unknown (m : OrdersMap) (l : MatchLog) (k : String)
    (hk : matchSellKey l = some k) (hlook : lookupKey m k = none) :
    applyMatchLog m l = m := by
  unfold applyMatchLog
  simp [hk, hlook]

theorem syncChunks_eq (scan : IndexState → Nat → Nat → OrdersMap) (head step : Nat)
    (hstep : 0 < step) (lo : Nat) (st : IndexState) :
    syncChunks scan head step hstep lo st =
      if head < lo then ([], [], st)
      else
        let chunkEnd := min head (lo + step - 1)
        let st' : IndexState :=
          { st with ordersByKey := scan st lo chunkEnd, lastScannedBlock := chunkEnd }
        let rest := syncChunks scan head step hstep (lo + step) st'
        ((lo, chunkEnd) :: rest.1, st' :: rest.2.1, rest.2.2) := by
  rw [syncChunks]
  split <;> simp [*]

theorem digitsToNat_from (s : List Char) (a : Nat) :
    List.foldl (fun a c => 10 * a + digitVal c) a s = a * 10 ^ s.length + digitsToNat s := by
  induction s generalizing a with
  | nil => simp [digitsToNat]
  | cons c t ih =>
      have hmain := ih (10 * a + digitVal c)
      have hzero : digitsToNat (c :: t) = digitVal c * 10 ^ t.length + digitsToNat t := by
        have := ih (digitVal c)
        simpa [digitsToNat] using this
      simp only [List.foldl_cons, List.length_cons, hzero] at *
      rw [hmain]
      ring

theorem digitsToNat_append (xs ys : List Char) :
    digitsToNat (xs ++ ys) = digitsToNat xs * 10 ^ ys.length + digitsToNat ys := by
  unfold digitsToNat
  rw [List.foldl_append]
  exact digitsToNat_from ys _

theorem digitsToNat_replicate_zero (k : Nat) : digitsToNat (List.replicate k '0') = 0 := by
  induction k with
  | zero => rfl
  | succ n ih =>
      rw [List.replicate_succ]
      have : digitsToNat ('0' :: List.replicate n '0')
          = digitVal '0' * 10 ^ n + digitsToNat (List.replicate n '0') := by
        have := digitsToNat_from (List.replicate n '0') (digitVal '0')
        simpa [digitsToNat] using this
      simp [this, ih, show digitVal '0' = 0 from by decide]

theorem digitsToNat_leading_zeros (k : Nat) (xs : List Char) :
    digitsToNat (List.replicate k '0' ++ xs) = digitsToNat xs := by
  rw [digitsToNat_append, digitsToNat_replicate_zero]
  simp

theorem digitVal_digitChar (m : Nat) (h : m < 10) : digitVal (Nat.digitChar m) = m := by
  interval_cases m <;> decide

theorem isDigitChar_digitChar (m : Nat) (h : m < 10) :
    isDigitChar (Nat.digitChar m) = true := by
  interval_cases m <;> decide

theorem digitsToNat_natToDigitsCore (n : Nat) : digitsToNat (natToDigitsCore n) = n := by
  induction n using Nat.strong_induction_on with
  | _ n ih =>
      rw [natToDigitsCore]
      split
      · simp [digitsToNat, *]
      · rename_i h
        rw [digitsToNat_append]
        have h10 : n % 10 < 10 := Nat.mod_lt n (by norm_num)
        have hdiv : n / 10 < n := Nat.div_lt_self (Nat.pos_of_ne_zero h) (by norm_num)
        have hone : digitsToNat [Nat.digitChar (n % 10)] = n % 10 := by
          simp [digitsToNat, digitVal_digitChar _ h10]
        rw [hone, ih _ hdiv]
        simp
        omega

theorem natToDigitsCore_all_digits (n : Nat) :
    (natToDigitsCore n).all isDigitChar = true := by
  induction n using Nat.strong_induction_on with
  | _ n ih =>
      rw [natToDigitsCore]
      split
      · simp
      · rename_i h
        have hdiv : n / 10 < n := Nat.div_lt_self (Nat.pos_of_ne_zero h) (by norm_num)
        have h10 : n % 10 < 10 := Nat.mod_lt n (by norm_num)
        simp [List.all_append, ih _ hdiv, isDigitChar_digitChar _ h10]

theorem natToDigitsCore_ne_nil (n : Nat) (h : n ≠ 0) : natToDigitsCore n ≠ [] := by
  rw [natToDigitsCore]
  simp [h]

theorem digitsToNat_natToDigits (n : Nat) : digitsToNat (natToDigits n) = n := by
  unfold natToDigits
  split
  · simp [digitsToNat, show digitVal '0' = 0 from by decide, *]
  · exact digitsToNat_natToDigitsCore n

theorem natToDigits_all_digits (n : Nat) : (natToDigits n).all isDigitChar = true := by
  unfold natToDigits
  split
  · decide
  · exact natToDigitsCore_all_digits n

theorem natToDigits_ne_nil (n : Nat) : natToDigits n ≠ [] := by
  unfold natToDigits
  split
  · simp
  · exact natToDigitsCore_ne_nil n (by assumption)

theorem stripZeros_split (s : List Char) :
    ∃ k, s = List.replicate k '0' ++ stripZerosKeepOne s := by
  induction s with
  | nil => exact ⟨0, rfl⟩
  | cons c t ih =>
      cases t with
      | nil => exact ⟨0, by simp [stripZerosKeepOne]⟩
      | cons c2 r =>
          by_cases hc : c = '0'
          · obtain ⟨k, hk⟩ := ih
            subst hc
            refine ⟨k + 1, ?_⟩
            rw [List.replicate_succ]
            simp only [stripZerosKeepOne, if_pos rfl, List.cons_append]
            exact congrArg _ hk
          · exact ⟨0, by simp [stripZerosKeepOne, hc]⟩

theorem stripZeros_ne_nil (s : List Char) (h : s ≠ []) : stripZerosKeepOne s ≠ [] := by
  induction s with
  | nil => exact absurd rfl h
  | cons c t ih =>
      cases t with
      | nil => simp [stripZerosKeepOne]
      | cons c2 r =>
          by_cases hc : c = '0'
          · subst hc
            simpa [stripZerosKeepOne] using ih (by simp)
          · simp [stripZerosKeepOne, hc]

theorem stripZeros_all {p : Char → Bool} (s : List Char) (h : s.all p = true) :
    (stripZerosKeepOne s).all p = true := by
  obtain ⟨k, hk⟩ := stripZeros_split s
  rw [hk, List.all_append] at h
  exact (Bool.and_eq_true _ _ |>.mp h).2

theorem takeWhile_append_sat (p : Char → Bool) (xs : List Char) (y : Char) (ys : List Char)
    (hxs : xs.all p = true) (hy : p y = false) :
    (xs ++ y :: ys).takeWhile p = xs ∧ (xs ++ y :: ys).dropWhile p = y :: ys := by
  induction xs with
  | nil => simp [List.takeWhile_cons, List.dropWhile_cons, hy]
  | cons c t ih =>
      simp only [List.all_cons, Bool.and_eq_true] at hxs
      have := ih hxs.2
      simp [List.takeWhile_cons, List.dropWhile_cons, hxs.1, this.1, this.2]

theorem dropWhile_all_false (p : Char → Bool) (s : List Char)
    (h : ∀ c ∈ s, p c = false) : s.dropWhile p = s := by
  cases s with
  | nil => rfl
  | cons c t => simp [List.dropWhile_cons, h c (by simp)]

theorem trimChars_eq_self (s : List Char) (h : ∀ c ∈ s, isWsChar c = false) :
    trimChars s = s := by
  unfold trimChars
  rw [dropWhile_all_false _ _ h,
      dropWhile_all_false _ _ (fun c hc => h c (List.mem_reverse.mp hc)),
      List.reverse_reverse]

theorem digit_not_ws (c : Char) (h : isDigitChar c = true) : isWsChar c = false := by
  by_contra hw
  rw [Bool.not_eq_false] at hw
  simp only [isWsChar, Bool.or_eq_true, decide_eq_true_eq] at hw
  rcases hw with ((rfl | rfl) | rfl) | rfl <;> exact absurd h (by decide)

theorem digit_ne_comma (c : Char) (h : isDigitChar c = true) : c ≠ ',' := by
  intro hc
  subst hc
  exact absurd h (by decide)

theorem cleanAmount_eq_self (s : List Char)
    (h : ∀ c ∈ s, isDigitChar c = true ∨ c = '.') : cleanAmount s = s := by
  unfold cleanAmount
  rw [trimChars_eq_self s (fun c hc => by
    rcases h c hc with hd | rfl
    · exact digit_not_ws c hd
    · decide)]
  rw [List.filter_eq_self]
  intro c hc
  rcases h c hc with hd | rfl
  · simpa using digit_ne_comma c hd
  · decide

theorem takeWhile_all (p : Char → Bool) (s : List Char) (h : s.all p = true) :
    s.takeWhile p = s ∧ s.dropWhile p = [] := by
  induction s with
  | nil => simp
  | cons c t ih =>
      simp only [List.all_cons, Bool.and_eq_true] at h
      have := ih h.2
      simp [List.takeWhile_cons, List.dropWhile_cons, h.1, this.1, this.2]

theorem matchAmount_digits (w : List Char) (hw : w.all isDigitChar = true) (hne : w ≠ []) :
    matchAmount w = some (w, []) := by
  obtain ⟨ht, hd⟩ := takeWhile_all isDigitChar w hw
  simp [matchAmount, ht, hd, hne]

theorem matchAmount_digits_dot (w f : List Char) (hw : w.all isDigitChar = true)
    (hwne : w ≠ []) (hf : f.all isDigitChar = true) (hfne : f ≠ []) :
    matchAmount (w ++ '.' :: f) = some (w, f) := by
  obtain ⟨ht, hd⟩ := takeWhile_append_sat isDigitChar w '.' f hw (by decide)
  simp [matchAmount, ht, hd, hwne, hfne, hf]

theorem parseUnitsCore_ne_malformed (w f : List Char) (d : Nat) :
    parseUnitsCore w f d ≠ .error .malformed := by
  unfold parseUnitsCore
  dsimp only
  split_ifs <;> simp

theorem parseUnitsCore_ok (w f : List Char) (d : Nat) (hd : d ≤ 80) (hf : f.length ≤ d) :
    parseUnitsCore w f d =
      if digitsToNat w * 10 ^ d + digitsToNat f * 10 ^ (d - f.length) < fixedWidthBound
      then .ok (digitsToNat w * 10 ^ d + digitsToNat f * 10 ^ (d - f.length))
      else .error .overflow := by
  unfold parseUnitsCore
  rw [if_neg (by omega), if_neg (by omega)]
  have hlen : (f ++ List.replicate (d - f.length) '0').length = d := by
    simp [List.length_append, List.length_replicate]
    omega
  dsimp only
  rw [digitsToNat_append, hlen, digitsToNat_append, digitsToNat_replicate_zero,
    List.length_replicate]
  simp

theorem replicate_all_digits (n : Nat) : (List.replicate n '0').all isDigitChar = true := by
  rw [List.all_eq_true]
  intro c hc
  rw [List.eq_of_mem_replicate hc]
  decide

theorem parse_format_aux (P : List Char) (d : Nat) (hd1 : 1 ≤ d) (hd80 : d ≤ 80)
    (hall : P.all isDigitChar = true) (hlen : d + 1 ≤ P.length)
    (hbound : digitsToNat P < fixedWidthBound) :
    parseDecimalToUnitsCore
      (stripZerosKeepOne (P.take (P.length - d)) ++ '.' ::
        (stripZerosKeepOne (P.drop (P.length - d)).reverse).reverse) d
      = .ok (digitsToNat P) := by
  have hwl : (P.take (P.length - d)).length = P.length - d := by
    rw [List.length_take]
    omega
  have hfl : (P.drop (P.length - d)).length = d := by
    rw [List.length_drop]
    omega
  have hwf : P.take (P.length - d) ++ P.drop (P.length - d) = P := List.take_append_drop _ P
  have hsplit : (P.take (P.length - d)).all isDigitChar = true
      ∧ (P.drop (P.length - d)).all isDigitChar = true := by
    rw [← hwf, List.all_append, Bool.and_eq_true] at hall
    exact hall
  have hwne : P.take (P.length - d) ≠ [] := by
    intro hnil
    have := congrArg List.length hnil
    simp [hwl] at this
    omega
  have hfne : P.drop (P.length - d) ≠ [] := by
    intro hnil
    have := congrArg List.length hnil
    simp [hfl] at this
    omega
  obtain ⟨k2, hk2⟩ := stripZeros_split (P.take (P.length - d))
  obtain ⟨k, hk⟩ := stripZeros_split (P.drop (P.length - d)).reverse
  have hw'all : (stripZerosKeepOne (P.take (P.length - d))).all isDigitChar = true :=
    stripZeros_all _ hsplit.1
  have hf'all :
      ((stripZerosKeepOne (P.drop (P.length - d)).reverse).reverse).all isDigitChar
        = true := by
    rw [List.all_reverse]
    exact stripZeros_all _ (by rw [List.all_reverse]; exact hsplit.2)
  have hw'ne : stripZerosKeepOne (P.take (P.length - d)) ≠ [] :=
    stripZeros_ne_nil _ hwne
  have hf'ne : (stripZerosKeepOne (P.drop (P.length - d)).reverse).reverse ≠ [] := by
    simp only [ne_eq, List.reverse_eq_nil_iff]
    exact stripZeros_ne_nil _ (by simp [hfne])
  have hfrk : P.drop (P.length - d)
      = (stripZerosKeepOne (P.drop (P.length - d)).reverse).reverse
        ++ List.replicate k '0' := by
    have h1 := congrArg List.reverse hk
    simpa [List.reverse_append, List.reverse_replicate] using h1
  have hflen2 :
      ((stripZerosKeepOne (P.drop (P.length - d)).reverse).reverse).length + k = d := by
    have hcl := congrArg List.length hfrk
    rw [List.length_append, List.length_replicate, hfl] at hcl
    omega
  have hclean : cleanAmount
      (stripZerosKeepOne (P.take (P.length - d)) ++ '.' ::
        (stripZerosKeepOne (P.drop (P.length - d)).reverse).reverse)
      = stripZerosKeepOne (P.take (P.length - d)) ++ '.' ::
        (stripZerosKeepOne (P.drop (P.length - d)).reverse).reverse := by
    apply cleanAmount_eq_self
    intro c hc
    rcases List.mem_append.mp hc with hcw | hcf
    · exact Or.inl (List.all_eq_true.mp hw'all c hcw)
    · rcases List.mem_cons.mp hcf with rfl | hcf2
      · exact Or.inr rfl
      · exact Or.inl (List.all_eq_true.mp hf'all c hcf2)
  unfold parseDecimalToUnitsCore
  rw [hclean, matchAmount_digits_dot _ _ hw'all hw'ne hf'all hf'ne]
  dsimp only
  rw [parseUnitsCore_ok _ _ d hd80 (by omega)]
  have hval : digitsToNat (stripZerosKeepOne (P.take (P.length - d))) * 10 ^ d
      + digitsToNat ((stripZerosKeepOne (P.drop (P.length - d)).reverse).reverse)
        * 10 ^ (d - ((stripZerosKeepOne (P.drop (P.length - d)).reverse).reverse).length)
      = digitsToNat P := by
    have hkd : d
        - ((stripZerosKeepOne (P.drop (P.length - d)).reverse).reverse).length = k := by
      omega
    rw [hkd]
    have hw'val : digitsToNat (stripZerosKeepOne (P.take (P.length - d)))
        = digitsToNat (P.take (P.length - d)) := by
      conv_rhs => rw [hk2]
      rw [digitsToNat_leading_zeros]
    have hf'val : digitsToNat ((stripZerosKeepOne (P.drop (P.length - d)).reverse).reverse)
          * 10 ^ k
        = digitsToNat (P.drop (P.length - d)) := by
      conv_rhs => rw [hfrk]
      rw [digitsToNat_append, digitsToNat_replicate_zero, List.length_replicate]
      simp
    rw [hw'val, hf'val]
    calc digitsToNat (P.take (P.length - d)) * 10 ^ d + digitsToNat (P.drop (P.length - d))
        = digitsToNat (P.take (P.length - d)) * 10 ^ (P.drop (P.length - d)).length
            + digitsToNat (P.drop (P.length - d)) := by rw [hfl]
      _ = digitsToNat (P.take (P.length - d) ++ P.drop (P.length - d)) :=
            (digitsToNat_append _ _).symm
      _ = digitsToNat P := by rw [hwf]
  rw [hval, if_pos hbound]

theorem parse_format_roundtrip (raw d : Nat) (hd : d ≤ 80) (hraw : raw < fixedWidthBound) :
    parseDecimalToUnitsCore (toStringFixed raw d) d = .ok raw := by
  by_cases hd0 : d = 0
  · subst hd0
    have hall := natToDigits_all_digits raw
    have hne := natToDigits_ne_nil raw
    have hts : toStringFixed raw 0 = natToDigits raw := by
      simp [toStringFixed]
    unfold parseDecimalToUnitsCore
    rw [hts, cleanAmount_eq_self _ (fun c hc => Or.inl (List.all_eq_true.mp hall c hc))]
    rw [matchAmount_digits _ hall hne]
    dsimp only
    rw [parseUnitsCore_ok _ _ 0 (by norm_num) (by simp)]
    have hzero : digitsToNat ([] : List Char) = 0 := rfl
    rw [digitsToNat_natToDigits, hzero]
    simp [hraw]
  · have hts : toStringFixed raw d =
        stripZerosKeepOne
            ((List.replicate (d + 1 - (natToDigits raw).length) '0' ++ natToDigits raw).take
              ((List.replicate (d + 1 - (natToDigits raw).length) '0'
                  ++ natToDigits raw).length - d))
          ++ '.' ::
            (stripZerosKeepOne
              ((List.replicate (d + 1 - (natToDigits raw).length) '0'
                  ++ natToDigits raw).drop
                ((List.replicate (d + 1 - (natToDigits raw).length) '0'
                    ++ natToDigits raw).length - d)).reverse).reverse := by
      simp only [toStringFixed, if_neg hd0]
    rw [hts]
    have hsl : 1 ≤ (natToDigits raw).length :=
      List.length_pos.mpr (natToDigits_ne_nil raw)
    have hlen : d + 1 ≤
        (List.replicate (d + 1 - (natToDigits raw).length) '0' ++ natToDigits raw).length := by
      rw [List.length_append, List.length_replicate]
      omega
    have hall :
        (List.replicate (d + 1 - (natToDigits raw).length) '0'
          ++ natToDigits raw).all isDigitChar = true := by
      rw [List.all_append, Bool.and_eq_true]
      exact ⟨replicate_all_digits _, natToDigits_all_digits raw⟩
    have hval : digitsToNat
        (List.replicate (d + 1 - (natToDigits raw).length) '0' ++ natToDigits raw) = raw := by
      rw [digitsToNat_leading_zeros, digitsToNat_natToDigits]
    rw [parse_format_aux _ d (by omega) hd hall hlen (by rw [hval]; exact hraw), hval]

/-! ### Claim theorems -/

/-- Claim C1 (corrected), counterexample: the claimed terminality of
`CANCELLED` and `FILLED` fails on the code. At concrete inputs, processing
a Make event for a key whose status is `"cancelled"` resets it to
`"open"`, a Cancel event on a `"filled"` key sets it to `"cancelled"`, and
a Match event on a `"cancelled"` key sets it to `"filled"`. -/
theorem c1_terminal_status_counterexample :
    ((lookupKey (scanRange [("0xkey1", sampleCancelledEntry)] [sampleMakeLog] [] [])
        "0xkey1").map IndexedOrder.status = some "open")
    ∧ ((lookupKey (scanRange [("0xkey1", sampleFilledEntry)] [] [sampleCancelLog] [])
        "0xkey1").map IndexedOrder.status = some "cancelled")
    ∧ ((lookupKey (scanRange [("0xkey1", sampleCancelledEntry)] [] [] [sampleMatchLog])
        "0xkey1").map IndexedOrder.status = some "filled") := by decide

/-- Claim C1 (corrected), amended: the only terminality guard in the
event processing of `scanRange` is that a Make event never changes a
`"filled"` status. A Cancel event sets the status of any existing key to
`"cancelled"` and a Match event sets the status of any existing sell-leg
key to `"filled"`, both regardless of the previous status (so a Make can
resurrect a cancelled order to open, a Cancel can overwrite a filled
order, and a Match can overwrite a cancelled order); Cancel and Match
events for unknown keys are ignored. -/
theorem c1_terminal_status_amended :
    (∀ (m : OrdersMap) (l : MakeLog) (e : IndexedOrder),
        lookupKey m l.orderKey = some e → e.status = "filled" →
        (lookupKey (applyMakeLog m l) l.orderKey).map IndexedOrder.status = some "filled")
    ∧ (∀ (m : OrdersMap) (l : CancelLog) (e : IndexedOrder),
        lookupKey m l.orderKey = some e →
        lookupKey (applyCancelLog m l) l.orderKey =
          some { e with status := "cancelled", lastUpdateBlock := l.blockNumber })
    ∧ (∀ (m : OrdersMap) (l : MatchLog) (k : String) (e : IndexedOrder),
        matchSellKey l = some k → lookupKey m k = some e →
        lookupKey (applyMatchLog m l) k =
          some { e with status := "filled", lastUpdateBlock := l.blockNumber })
    ∧ (∀ (m : OrdersMap) (l : CancelLog),
        lookupKey m l.orderKey = none → applyCancelLog m l = m)
    ∧ (∀ (m : OrdersMap) (l : MatchLog) (k : String),
        matchSellKey l = some k → lookupKey m k = none → applyMatchLog m l = m) :=
  ⟨fun m l e hl hf => (applyMakeLog_existing m l e hl).2 hf,
   fun m l e hl => applyCancelLog_existing m l e hl,
   fun m l k e hk hl => applyMatchLog_existing m l k e hk hl,
   fun m l hl => applyCancelLog_unknown m l hl,
   fun m l k hk hl => applyMatchLog_unknown m l k hk hl⟩

/-- Claim C1, witness: the amended statement applied at concrete inputs. -/
theorem c1_terminal_status_witness :
    ((lookupKey (applyMakeLog [("0xkey1", sampleFilledEntry)] sampleMakeLog)
        "0xkey1").map IndexedOrder.status = some "filled")
    ∧ (lookupKey (applyCancelLog [("0xkey1", sampleFilledEntry)] sampleCancelLog) "0xkey1"
        = some { sampleFilledEntry with status := "cancelled", lastUpdateBlock := 9 })
    ∧ (lookupKey (applyMatchLog [("0xkey1", sampleCancelledEntry)] sampleMatchLog) "0xkey1"
        = some { sampleCancelledEntry with status := "filled", lastUpdateBlock := 9 })
    ∧ applyCancelLog [] sampleCancelLog = []
    ∧ applyMatchLog [] sampleMatchLog = [] := by
  refine ⟨?_, ?_, ?_, ?_, ?_⟩
  · exact c1_terminal_status_amended.1 _ sampleMakeLog sampleFilledEntry (by decide)
      (by decide)
  · exact c1_terminal_status_amended.2.1 _ sampleCancelLog sampleFilledEntry (by decide)
  · exact c1_terminal_status_amended.2.2.1 _ sampleMatchLog "0xkey1" sampleCancelledEntry
      (by decide) (by decide)
  · exact c1_terminal_status_amended.2.2.2.1 _ sampleCancelLog (by decide)
  · exact c1_terminal_status_amended.2.2.2.2 _ sampleMatchLog "0xkey1" (by decide) (by decide)

/-- Claim C2 (corrected), counterexample: with `INDEXER_FROM_BLOCK = 0`
(the configuration default), a matching loaded state with
`lastScannedBlock = 10` and chain head 100000, the first scanned chunk
starts at 50000 (`max(1, head - 50000)`), not at
`max(configuredFromBlock, lastScannedBlock + 1) = 11` as claimed. -/
theorem c2_sync_start_counterexample :
    (sync cfgFromZero (some stateLast10) 100000 500 (by norm_num) scanNoEvents).1.head?
        = some (50000, 50499)
    ∧ max cfgFromZero.INDEXER_FROM_BLOCK (stateLast10.lastScannedBlock + 1) = 11 := by
  constructor
  · rw [sync]
    norm_num [cfgFromZero, stateLast10]
    rw [syncChunks_eq]
    norm_num
  · decide

/-- Claim C2 (corrected), amended: for a sync whose loaded state matches
the configured chain id and orderbook address, the first block scanned is
`max(fromBlock, lastScannedBlock + 1)` where `fromBlock` is the configured
from-block when it is positive and `max(1, head - 50000)` otherwise; when
that start exceeds the chain head, `sync` returns without scanning and
without modifying or persisting the state. When the configured from-block
is positive the start is exactly `max(configuredFromBlock,
lastScannedBlock + 1)` as the original claim states. -/
theorem c2_sync_start_amended (cfg : IndexerCfg) (ex : IndexState) (head step : Nat)
    (hstep : 0 < step) (scan : IndexState → Nat → Nat → OrdersMap) (start : Nat)
    (hchain : ex.chainId = cfg.CHAIN_ID)
    (horder : normAddr ex.orderbook = normAddr cfg.ORDERBOOK_ADDRESS)
    (hstart : start =
      max (if 0 < cfg.INDEXER_FROM_BLOCK then cfg.INDEXER_FROM_BLOCK
           else max 1 (head - 50000))
        (ex.lastScannedBlock + 1)) :
    (start ≤ head →
      (sync cfg (some ex) head step hstep scan).1.head? =
        some (start, min head (start + step - 1)))
    ∧ (head < start → sync cfg (some ex) head step hstep scan = ([], [], ex))
    ∧ (0 < cfg.INDEXER_FROM_BLOCK →
        start = max cfg.INDEXER_FROM_BLOCK (ex.lastScannedBlock + 1)) := by
  have hsel : sync cfg (some ex) head step hstep scan =
      if head < start then ([], [], ex) else syncChunks scan head step hstep start ex := by
    unfold sync
    simp [hchain, horder, hstart]
  refine ⟨?_, ?_, ?_⟩
  · intro hle
    rw [hsel, if_neg (by omega), syncChunks_eq, if_neg (by omega)]
    simp
  · intro hgt
    rw [hsel, if_pos hgt]
  · intro hpos
    simp [hstart, hpos]

/-- Claim C2, witness: the amended statement applied at the concrete
counterexample configuration, where the start block is 50000. -/
theorem c2_sync_start_witness :
    (50000 ≤ 100000 →
      (sync cfgFromZero (some stateLast10) 100000 500 (by norm_num) scanNoEvents).1.head? =
        some (50000, min 100000 (50000 + 500 - 1)))
    ∧ (100000 < 50000 →
        sync cfgFromZero (some stateLast10) 100000 500 (by norm_num) scanNoEvents
          = ([], [], stateLast10))
    ∧ (0 < cfgFromZero.INDEXER_FROM_BLOCK →
        50000 = max cfgFromZero.INDEXER_FROM_BLOCK (stateLast10.lastScannedBlock + 1)) :=
  c2_sync_start_amended cfgFromZero stateLast10 100000 500 (by norm_num) scanNoEvents
    50000 (by decide) (by decide) (by decide)

/-- Claim C3 (confirmed): `getActiveSellOrders` returns exactly the
indexed entries with status `"open"`, sell side (`side = 0`,
`saleKind = 1`), the configured quote currency up to case, unit NFT
amount, unexpired (`expiry = 0` or `expiry > now`), and — when a
non-empty collection allow-list is configured — a collection in the
allow-list; everything else, including an open order whose expiry has
passed, is excluded. -/
theorem c3_active_sell_orders (cfg : IndexerCfg) (state : IndexState) (nowSec : Nat)
    (e : IndexedOrder) :
    e ∈ getActiveSellOrders cfg state nowSec ↔
      e ∈ state.ordersByKey.map Prod.snd
      ∧ e.status = "open"
      ∧ e.order.side = 0 ∧ e.order.saleKind = 1
      ∧ normAddr e.order.currency = normAddr cfg.USDOL_ADDRESS
      ∧ e.order.nft.amount = 1
      ∧ (e.order.expiry = 0 ∨ nowSec < e.order.expiry)
      ∧ (parseAllowlist cfg.COLLECTION_ALLOWLIST ≠ [] →
          memStr (parseAllowlist cfg.COLLECTION_ALLOWLIST)
            (normAddr e.order.nft.collectionAddr) = true) := by
  rw [getActiveSellOrders, List.mem_filter, activeSellPred]
  simp only [Bool.and_eq_true, decide_eq_true_eq, isSellOrder, not_isExpired_iff,
    allowGuard_iff, and_assoc]

/-- Claim C4 (corrected), counterexample: with `dryRun = true`, a sell
order whose currency mismatches the configured quote token makes the
matcher throw a currency-mismatch error instead of returning null; and
for a matching order the dry run still performs the allowance read, so
the allowance-ensure step is not skipped entirely. -/
theorem c4_dry_run_counterexample :
    matchOrder sampleMatchCfg sampleSellWrongCurrency { dryRun := true, approveMax := false }
        sampleMatchWorld = ([], .error .currencyMismatch)
    ∧ (matchOrder sampleMatchCfg sampleSell { dryRun := true, approveMax := false }
        sampleMatchWorld).1 = [ChainEffect.allowanceRead "0xwallet" "0xob"] := by
  decide

/-- Claim C4 (corrected), amended: with a healthy provider, a sell order
whose currency matches the configured quote token (case-insensitively)
and `dryRun = true`, the matcher performs exactly the allowance read —
it never submits an approval or match transaction — and returns null;
dry-run skips the approval submission, not the allowance read, and a
currency-mismatch order throws instead of returning null. -/
theorem c4_dry_run_amended (cfg : OrderMatchCfg) (sell : Order) (opts : MatchOpts)
    (w : MatchWorld) (hh : w.healthy = true)
    (hc : normAddr sell.currency = normAddr cfg.USDOL_ADDRESS)
    (hd : opts.dryRun = true) :
    matchOrder cfg sell opts w =
      ([ChainEffect.allowanceRead w.walletAddress cfg.ORDERBOOK_ADDRESS], .ok none) := by
  unfold matchOrder ensureAllowance
  simp only [hh, hc, hd]
  split_ifs <;> simp_all

/-- Claim C4, witness: the amended statement at the concrete fixtures. -/
theorem c4_dry_run_witness :
    matchOrder sampleMatchCfg sampleSell { dryRun := true, approveMax := false }
        sampleMatchWorld =
      ([ChainEffect.allowanceRead sampleMatchWorld.walletAddress
          sampleMatchCfg.ORDERBOOK_ADDRESS], .ok none) :=
  c4_dry_run_amended sampleMatchCfg sampleSell { dryRun := true, approveMax := false }
    sampleMatchWorld (by decide) (by decide) (by decide)

/-- Claim C5 (confirmed): when fetching `[lo, hi]` fails with `lo < hi`,
`getLogsSafe` splits the range at the midpoint and pushes both halves,
each carrying its own attempt counter; when a single-block fetch fails it
is retried while `attempts < 2`, sleeping `500ms * (attempts + 1)` before
the retry, and once `attempts ≥ 2` the fetch error is propagated to the
caller. A fresh single-block range against an always-failing fetch is
retried exactly twice, with backoffs 500ms and 1000ms, before the error
is returned. -/
theorem c5_get_logs_safe {L E : Type} (fetch : Nat → Nat → Nat → Except E (List L))
    (f : LogFrame) (stack : List LogFrame) (out : List L) (sleeps : List Nat) (e : E)
    (hfail : fetch f.lo f.hi f.attempts = .error e) :
    (f.lo < f.hi →
      getLogsSafeGo fetch (f :: stack) out sleeps =
        getLogsSafeGo fetch
          (⟨f.lo, (f.lo + f.hi) / 2, f.attempts + 1⟩ ::
            ⟨(f.lo + f.hi) / 2 + 1, f.hi, f.attempts + 1⟩ :: stack) out sleeps)
    ∧ (f.lo = f.hi → f.attempts < 2 →
        getLogsSafeGo fetch (f :: stack) out sleeps =
          getLogsSafeGo fetch (⟨f.lo, f.hi, f.attempts + 1⟩ :: stack) out
            (sleeps ++ [500 * (f.attempts + 1)]))
    ∧ (f.lo = f.hi → 2 ≤ f.attempts →
        getLogsSafeGo fetch (f :: stack) out sleeps = (sleeps, .error e))
    ∧ getLogsSafe (fun _ _ _ => (.error e : Except E (List L))) 5 5 =
        ([500, 1000], .error e) := by
  obtain ⟨lo, hi, a⟩ := f
  simp only at hfail
  refine ⟨?_, ?_, ?_, ?_⟩
  · intro hlt
    rw [getLogsSafeGo]
    simp [hfail, hlt]
  · intro heq hlt
    simp only at heq hlt
    subst heq
    rw [getLogsSafeGo]
    simp [hfail, hlt, show ¬(lo < lo) from by omega]
  · intro heq hge
    simp only at heq hge
    subst heq
    rw [getLogsSafeGo]
    simp [hfail, show ¬(lo < lo) from by omega, show ¬(a < 2) from by omega]
  · rw [getLogsSafe]
    rw [getLogsSafeGo]
    norm_num
    rw [getLogsSafeGo]
    norm_num
    rw [getLogsSafeGo]
    norm_num

/-- Claim C5, witness: the bisection branch applied to a concrete failing
fetch on the range `[0, 1]`. -/
theorem c5_get_logs_safe_witness :
    getLogsSafeGo (fun _ _ _ => (.error 3 : Except Nat (List Nat))) [⟨0, 1, 0⟩] [] [] =
      getLogsSafeGo (fun _ _ _ => (.error 3 : Except Nat (List Nat)))
        [⟨0, 0, 1⟩, ⟨1, 1, 1⟩] [] [] :=
  (c5_get_logs_safe (fun _ _ _ => .error 3) ⟨0, 1, 0⟩ [] [] [] 3 rfl).1 (by norm_num)

/-- Claim C6 (corrected), counterexample: the input `"0.1234567"` matches
`^\d+(\.\d+)?$` after cleaning, yet with `decimals = 6` the call fails
with ethers' underflow fault (the fraction has more digits than
`decimals`) instead of succeeding as claimed. -/
theorem c6_parse_decimal_counterexample :
    parseDecimalToUnits "0.1234567" 6 = .error .underflow
    ∧ matchAmount (cleanAmount "0.1234567".toList)
        = some (['0'], ['1', '2', '3', '4', '5', '6', '7']) := by decide

/-- Claim C6 (corrected), amended: an input failing the pattern (after
trimming and stripping commas) fails with the malformed-amount error and
that error arises only that way; an input matching the pattern succeeds
with the exact decimal value scaled by `10^decimals` — with no rounding —
provided additionally that its fractional part has at most `decimals`
digits, that `decimals ≤ 80`, and that the scaled value fits ethers'
signed 512-bit width (otherwise ethers' underflow / bad-decimals /
overflow faults are raised instead). -/
theorem c6_parse_decimal_amended (s : String) (d : Nat) :
    (parseDecimalToUnits s d = .error .malformed ↔
      matchAmount (cleanAmount s.toList) = none)
    ∧ (∀ whole frac, matchAmount (cleanAmount s.toList) = some (whole, frac) →
        d ≤ 80 → frac.length ≤ d →
        digitsToNat whole * 10 ^ d + digitsToNat frac * 10 ^ (d - frac.length)
          < fixedWidthBound →
        parseDecimalToUnits s d =
          .ok (digitsToNat whole * 10 ^ d + digitsToNat frac * 10 ^ (d - frac.length))) := by
  constructor
  · unfold parseDecimalToUnits parseDecimalToUnitsCore
    cases hm : matchAmount (cleanAmount s.toList) with
    | none => simp
    | some wf =>
        obtain ⟨w, f⟩ := wf
        simp [parseUnitsCore_ne_malformed w f d]
  · intro w f hm hd hf hb
    unfold parseDecimalToUnits parseDecimalToUnitsCore
    rw [hm]
    dsimp only
    rw [parseUnitsCore_ok _ _ d hd hf, if_pos hb]

/-- Claim C6, witness: the success branch of the amended statement at
`"12.5"` with 6 decimals, giving the exact value 12500000. -/
theorem c6_parse_decimal_witness : parseDecimalToUnits "12.5" 6 = .ok 12500000 := by
  have h := (c6_parse_decimal_amended "12.5" 6).2 ['1', '2'] ['5'] (by decide) (by norm_num)
    (by decide) (by decide)
  have h2 : digitsToNat ['1', '2'] * 10 ^ 6
      + digitsToNat ['5'] * 10 ^ (6 - (['5'] : List Char).length) = 12500000 := by decide
  rw [h2] at h
  exact h

/-- Claim C7 (corrected), counterexample: the round trip is not the
identity for every decimals value — ethers' `FixedNumber` format rejects
`decimals = 81`, so `toHumanUnits(0, 81)` throws (bad decimals) and the
round trip does not return 0. -/
theorem c7_round_trip_counterexample :
    rawRoundTrip 0 81 = .error .badDecimals ∧ rawRoundTrip 0 81 ≠ .ok 0 := by
  decide

/-- Claim C7 (corrected), amended: for every raw amount below ethers'
signed 512-bit bound and every `decimals ≤ 80`,
`toRawUnits(toHumanUnits(raw, decimals), decimals) = raw`; in particular
`toRawUnits("12.5", 6) = 12500000` and `toHumanUnits(12500000, 6) =
"12.5"` hold exactly as the original claim states. -/
theorem c7_round_trip_amended :
    (∀ raw d : Nat, d ≤ 80 → raw < fixedWidthBound → rawRoundTrip raw d = .ok raw)
    ∧ parseDecimalToUnits "12.5" 6 = .ok 12500000
    ∧ formatUnitsHuman 12500000 6 = .ok "12.5" := by
  refine ⟨?_, ?_, ?_⟩
  · intro raw d hd hraw
    unfold rawRoundTrip
    rw [formatUnitsHuman, if_neg (by omega), if_pos hraw]
    exact parse_format_roundtrip raw d hd hraw
  · decide
  · have hnd : natToDigits 12500000 = ['1', '2', '5', '0', '0', '0', '0', '0'] := by
      rw [natToDigits, if_neg (by norm_num)]
      rw [natToDigitsCore]
      norm_num
      rw [natToDigitsCore]
      norm_num
      rw [natToDigitsCore]
      norm_num
      rw [natToDigitsCore]
      norm_num
      rw [natToDigitsCore]
      norm_num
      rw [natToDigitsCore]
      norm_num
      rw [natToDigitsCore]
      norm_num
      rw [natToDigitsCore]
      norm_num
      rw [natToDigitsCore]
      norm_num
      decide
    rw [formatUnitsHuman, if_neg (by norm_num), if_pos (by decide)]
    rw [toStringFixed, hnd]
    decide

/-- Claim C7, witness: the amended round trip applied at the concrete
pair of the original claim, `raw = 12500000` and `decimals = 6`. -/
theorem c7_round_trip_witness : rawRoundTrip 12500000 6 = .ok 12500000 :=
  c7_round_trip_amended.1 12500000 6 (by norm_num) (by decide)

/-- Claim C8 (confirmed): re-processing a Make event for a key whose
indexed status is already `"filled"` leaves the status `"filled"`, and
the existing entry's `firstSeenBlock` is preserved. -/
theorem c8_make_preserves_filled (m : OrdersMap) (l : MakeLog) (e : IndexedOrder)
    (hlook : lookupKey m l.orderKey = some e) (hfilled : e.status = "filled") :
    (lookupKey (applyMakeLog m l) l.orderKey).map IndexedOrder.status = some "filled"
    ∧ (lookupKey (applyMakeLog m l) l.orderKey).map IndexedOrder.firstSeenBlock
        = some e.firstSeenBlock := by
  have h := applyMakeLog_existing m l e hlook
  exact ⟨h.2 hfilled, h.1⟩

/-- Claim C8, witness: re-processing the sample Make event over a filled
entry keeps status `"filled"` and `firstSeenBlock = 5`. -/
theorem c8_make_preserves_filled_witness :
    (lookupKey (applyMakeLog [("0xkey1", sampleFilledEntry)] sampleMakeLog) "0xkey1").map
        IndexedOrder.status = some "filled"
    ∧ (lookupKey (applyMakeLog [("0xkey1", sampleFilledEntry)] sampleMakeLog) "0xkey1").map
        IndexedOrder.firstSeenBlock = some 5 :=
  c8_make_preserves_filled [("0xkey1", sampleFilledEntry)] sampleMakeLog sampleFilledEntry
    (by decide) (by decide)

/-- Claim C9 (confirmed): `checkRisk` throws the quantity-exceeded error
if and only if `intent.quantity > MAX_QTY`; in particular with
`MAX_QTY = 5` a quantity of 6 is rejected with that error while a
quantity of 5 passes (and, with no other constraints, the whole check
succeeds). -/
theorem c9_quantity_gate :
    (∀ (cfg : RiskCfg) (intent : RiskIntent) (orders : List Order) (w : RiskWorld),
        checkRisk cfg intent orders w = .error .quantityExceeded ↔
          cfg.MAX_QTY < intent.quantity)
    ∧ checkRisk sampleRiskCfg (plainIntent 6) [] sampleRiskWorld = .error .quantityExceeded
    ∧ checkRisk sampleRiskCfg (plainIntent 5) [] sampleRiskWorld = .ok () :=
  ⟨checkRisk_quantity_iff, by decide, by decide⟩

/-- Claim C10 (confirmed): when no comma- or whitespace-separated entry of
the configured allow-list string matches `^0x[0-9a-fA-F]{40}$`,
`parseAllowlist` returns the empty set (malformed entries are silently
dropped), and both the indexer's active-sell-order collection filter and
the risk checker behave exactly as if no allow-list were configured. -/
theorem c10_malformed_allowlist (s : String) (cfg : IndexerCfg) (state : IndexState)
    (nowSec : Nat) (rcfg : RiskCfg) (intent : RiskIntent) (orders : List Order)
    (w : RiskWorld) (hmal : ∀ p ∈ splitParts s.toList, isHexAddr p = false) :
    parseAllowlist (some s) = []
    ∧ getActiveSellOrders { cfg with COLLECTION_ALLOWLIST := some s } state nowSec
        = getActiveSellOrders { cfg with COLLECTION_ALLOWLIST := none } state nowSec
    ∧ checkRisk { rcfg with COLLECTION_ALLOWLIST := some s } intent orders w
        = checkRisk { rcfg with COLLECTION_ALLOWLIST := none } intent orders w := by
  have h1 : parseAllowlist (some s) = [] := by
    simp only [parseAllowlist, List.map_eq_nil_iff, List.filter_eq_nil_iff]
    exact fun p hp => by simp [hmal p hp]
  have h2 : parseAllowlist none = [] := rfl
  refine ⟨h1, ?_, ?_⟩
  · simp only [getActiveSellOrders, h1, h2]
    exact List.filter_congr (fun x _ => by simp [activeSellPred])
  · simp [checkRisk, checkRiskRest, h1, h2]

/-- Claim C10, witness: the statement applied to the malformed allow-list
string `"hello, world"` with the concrete fixtures. -/
theorem c10_malformed_allowlist_witness :
    parseAllowlist (some "hello, world") = []
    ∧ getActiveSellOrders { cfgFromZero with COLLECTION_ALLOWLIST := some "hello, world" }
          stateLast10 0
        = getActiveSellOrders { cfgFromZero with COLLECTION_ALLOWLIST := none }
          stateLast10 0
    ∧ checkRisk { sampleRiskCfg with COLLECTION_ALLOWLIST := some "hello, world" }
          (plainIntent 1) [] sampleRiskWorld
        = checkRisk { sampleRiskCfg with COLLECTION_ALLOWLIST := none }
          (plainIntent 1) [] sampleRiskWorld :=
  c10_malformed_allowlist "hello, world" cfgFromZero stateLast10 0 sampleRiskCfg
    (plainIntent 1) [] sampleRiskWorld (by decide)
